import Mathlib

/-!
Verification development for the Christmas riddle game
(admin console + dialogue turn controller + game session state).

Shallow embedding of:
* the `GameProvider` session state and its operations
  (`startGame`, `endGame`, `useHint`, parameter setters);
* the `AdminPage` turn controller (`processNextInQueue`, the pending
  utterance queue, mute / stop handlers, the end-of-game timer);
* the marker post-processing of `useLMStudio.handleUserInput`;
* the `useSpeechRecognition.stopListening` flush behaviour.

JavaScript numbers that only ever hold small integers are modelled as
`Int` (the hint counters) or `Nat` (timer delays); JS `Set<string>` is
modelled as a duplicate-free `List String` with membership-guarded
insertion; `Math.random()`-driven index selection is modelled by an
arbitrary `pick : Nat` oracle reduced modulo the candidate count, so all
theorems hold for every possible random choice.
-/

namespace RiddleGame

/-- Character emotion, from `useWindowChannel.CharacterEmotion`. -/
inductive Emotion where
  | neutral
  | listening
  | thinking
  | happy
  | sad
deriving DecidableEq, Repr

/-- Game state record, from `useWindowChannel.GameState` (the optional
`customDisplay` / `hintText` fields are omitted: no claim touches them). -/
structure GState where
  isGameActive : Bool
  currentWord : String
  currentRiddle : String
  hintsRemaining : Int
  hintsUsed : Int
  emotion : Emotion
  statusText : String
deriving DecidableEq, Repr

/-- Game parameters, from `GameContext.GameParams` (difficulty omitted:
it only selects prompt wording and no claim touches it). -/
structure GameParams where
  hintsAllowed : Int
  wordList : List String
deriving DecidableEq, Repr

/-- The default word pool (`DEFAULT_WORDS` in GameContext). -/
def DEFAULT_WORDS : List String :=
  ["snowflake", "reindeer", "mistletoe", "gingerbread", "candy cane",
   "ornament", "sleigh", "chimney", "stockings", "wreath",
   "nutcracker", "eggnog", "fruitcake", "caroling", "tinsel",
   "snowman", "icicle", "poinsettia", "holly", "bells",
   "presents", "fireplace", "sugarplum", "angel", "star"]

/-- `DEFAULT_PARAMS` in GameContext. -/
def DEFAULT_PARAMS : GameParams :=
  { hintsAllowed := 3, wordList := DEFAULT_WORDS }

/-- `DEFAULT_GAME_STATE` in GameContext. -/
def DEFAULT_GAME_STATE : GState :=
  { isGameActive := false
    currentWord := ""
    currentRiddle := ""
    hintsRemaining := 3
    hintsUsed := 0
    emotion := .neutral
    statusText := "Waiting to start..." }

/-- JS `Set.add` on the used-words set: inserting an element already
present leaves the set unchanged. -/
def insertUsed (used : List String) (w : String) : List String :=
  if used.contains w then used else used ++ [w]

/-- The word-selection core of `GameContext.startGame`: filter out used
words, reset the used set when every word is used, then pick an index
into the candidate list (`pick % length` models `Math.floor(Math.random()
* words.length)`, which is always a valid index of a non-empty list).
Returns the selected word and the new used set. -/
def startGameSel (wordList used : List String) (pick : Nat) :
    String × List String :=
  let available := wordList.filter (fun w => !used.contains w)
  let used1 := if available.length = 0 then [] else used
  let words := if available.length > 0 then available else wordList
  let selected := words.getD (pick % words.length) ""
  (selected, insertUsed used1 selected)

/-- `GameContext.useHint` acting on the game state: fail without
mutation when no hints remain, otherwise decrement remaining and
increment used. -/
def useHint (g : GState) : Bool × GState :=
  if g.hintsRemaining ≤ 0 then (false, g)
  else
    (true,
     { g with
        hintsRemaining := g.hintsRemaining - 1
        hintsUsed := g.hintsUsed + 1 })

/-- Iterate the state part of `useHint` a number of times. -/
def hintIter : Nat → GState → GState
  | 0, g => g
  | k + 1, g => hintIter k (useHint g).2

/-- The full provider state: parameters, game state, the used-words set
and a ghost field recording the `hintsAllowed` parameter captured at the
most recent `startGame` (initially the default 3). -/
structure ProviderState where
  params : GameParams
  gameState : GState
  usedWords : List String
  allowedAtStart : Int
deriving DecidableEq, Repr

/-- The provider state created at process start. -/
def initialProvider : ProviderState :=
  { params := DEFAULT_PARAMS
    gameState := DEFAULT_GAME_STATE
    usedWords := []
    allowedAtStart := 3 }

/-- `GameContext.startGame` on the provider state: select a word, mark
it used, and reset the game state for a fresh round (note the riddle is
cleared; it is only filled in once generation completes). -/
def startGame (s : ProviderState) (pick : Nat) : String × ProviderState :=
  let sel := startGameSel s.params.wordList s.usedWords pick
  (sel.1,
   { s with
      usedWords := sel.2
      allowedAtStart := s.params.hintsAllowed
      gameState :=
        { isGameActive := true
          currentWord := sel.1
          currentRiddle := ""
          hintsRemaining := s.params.hintsAllowed
          hintsUsed := 0
          emotion := .neutral
          statusText := "Generating riddle..." } })

/-- `GameContext.endGame`: mark inactive and reset emotion, preserving
every other field (in particular the word and riddle). -/
def endGame (s : ProviderState) : ProviderState :=
  { s with
     gameState :=
       { s.gameState with
          isGameActive := false
          emotion := .neutral
          statusText := "Game ended" } }

/-- `handleSaveParams` in AdminPage: split lines, trim, drop blanks. -/
def saveWords (lines : List String) : List String :=
  (lines.map (fun l => l.trim)).filter (fun w => w.length > 0)

/-- Operations on the provider state reachable from the admin UI. -/
inductive GOp where
  | startGame (pick : Nat)
  | endGame
  | useHint
  | setHintsAllowed (v : Nat)
  | saveWordList (lines : List String)
  | setRiddle (r : String)
  | setEmotion (e : Emotion)
deriving DecidableEq, Repr

/-- One provider-state transition per UI operation.  `setHintsAllowed`
carries a `Nat` because the slider is clamped to `0..10` (the
configuration surface requires `hintsAllowed ≥ 0`). -/
def gstep (s : ProviderState) : GOp → ProviderState
  | .startGame pick => (startGame s pick).2
  | .endGame => endGame s
  | .useHint => { s with gameState := (useHint s.gameState).2 }
  | .setHintsAllowed v =>
      { s with params := { s.params with hintsAllowed := (v : Int) } }
  | .saveWordList lines =>
      { s with params := { s.params with wordList := saveWords lines } }
  | .setRiddle r =>
      { s with gameState := { s.gameState with currentRiddle := r } }
  | .setEmotion e =>
      { s with gameState := { s.gameState with emotion := e } }

/-- Run a list of operations from a provider state. -/
def grun (s : ProviderState) (ops : List GOp) : ProviderState :=
  ops.foldl gstep s

/-- Boolean wellformedness of a UI operation: `handleSaveParams` is
only considered with at least one non-blank line (otherwise it installs
an empty word pool, outside the configuration contract of a non-empty
word list). -/
def wfOp : GOp → Bool
  | .saveWordList lines => !(saveWords lines).isEmpty
  | _ => true

/-- Repeat the selection part of `startGame`: run `startGameSel` once
per entry of `picks`, threading the used set; returns the list of
selected words in order together with the final used set. -/
def runSelections (wordList : List String) (used : List String) :
    List Nat → List String × List String
  | [] => ([], used)
  | p :: ps =>
    let sel := startGameSel wordList used p
    let rest := runSelections wordList sel.2 ps
    (sel.1 :: rest.1, rest.2)

/-- Hint-counter invariant that actually holds: the counters are tied to
the `hintsAllowed` value captured at the most recent `startGame` (the
ghost `allowedAtStart`, initially the default 3), not to the live
parameter — `setParams` does not rescale the in-game counters. -/
def HintInv (s : ProviderState) : Prop :=
  0 ≤ s.gameState.hintsRemaining ∧
  0 ≤ s.gameState.hintsUsed ∧
  s.gameState.hintsRemaining + s.gameState.hintsUsed = s.allowedAtStart ∧
  s.gameState.hintsRemaining ≤ s.allowedAtStart ∧
  0 ≤ s.params.hintsAllowed

instance (s : ProviderState) : Decidable (HintInv s) := by
  unfold HintInv; infer_instance

/-- Word/riddle invariant that actually holds: the configured pool stays
non-empty with non-blank words, and the secret word is non-blank
whenever a game is active.  (The riddle may be empty while active, and
`endGame` preserves word and riddle, so emptiness is not equivalent to
inactivity.) -/
def WordInv (s : ProviderState) : Prop :=
  s.params.wordList ≠ [] ∧
  (∀ w ∈ s.params.wordList, w ≠ "") ∧
  (s.gameState.isGameActive = true → s.gameState.currentWord ≠ "")

instance (s : ProviderState) : Decidable (WordInv s) := by
  unfold WordInv; infer_instance

/-- JavaScript whitespace for `trim` (the characters that occur in
practice). -/
def isWsp (c : Char) : Bool :=
  c = ' ' || c = '\n' || c = '\t' || c = '\r'

/-- JavaScript `String.trim`: drop whitespace from both ends. -/
def trimSeq (l : List Char) : List Char :=
  ((l.dropWhile isWsp).reverse.dropWhile isWsp).reverse

/-- JavaScript `String.trim` on packed strings, via `trimSeq`. -/
def jsTrim (s : String) : String :=
  (trimSeq s.toList).asString

/-! ## The AdminPage turn controller

`processNextInQueue` in AdminPage is an async function: its synchronous
prefix (re-entrancy guard, dequeue, emotion/status updates) runs
atomically up to the `await handleUserInput(...)`, and its continuation
(outcome branches, `catch`, `finally`) runs atomically once the judge
call resolves.  The embedding therefore splits it into
`processNextInQueue` (the prefix) and `resolveTurn` (the continuation),
and drives them with an event step relation; the `setTimeout` re-entry
at the end of `finally` is the separate `beginTurn` event.

Ghost fields record observable history: `inFlight` holds the utterance
currently awaiting the judge (dequeued but unresolved), `processed` the
utterances whose cycle completed, `narrated` the texts handed to
`speak`, `errorsSurfaced` the judge-error toasts, and `endGameTimers`
the delays of pending `setTimeout(endGame, 5000)` timers. -/

/-- Outcome of one judge round trip, as decoded by `handleUserInput`;
`judgeUnavailable` is the thrown transport error. -/
inductive JudgeOutcome where
  | question (msg : String)
  | correct (msg : String)
  | incorrect (msg : String)
  | judgeUnavailable
deriving DecidableEq, Repr

/-- State of the AdminPage turn controller, together with the speech
hook state it can observe synchronously: `accumulated` is
`useSpeechRecognition`'s `accumulatedTranscriptRef` — the
finalized-but-undelivered transcript that `stopListening` flushes
through `onResult` when non-blank. -/
structure TurnState where
  queue : List String
  isProcessingRef : Bool
  inFlight : List String
  processed : List String
  isGameActive : Bool
  isMuted : Bool
  isSpeaking : Bool
  emotion : Emotion
  statusText : String
  narrated : List String
  errorsSurfaced : Nat
  endGameTimers : List Nat
  accumulated : String
deriving DecidableEq, Repr

/-- Synchronous prefix of `processNextInQueue`: bail out if already
processing, the queue is empty, the game is inactive or muted;
otherwise dequeue the oldest utterance, raise the guard and switch to
the thinking state. -/
def processNextInQueue (s : TurnState) : TurnState :=
  if s.isProcessingRef || s.queue.isEmpty then s
  else if !s.isGameActive || s.isMuted then s
  else
    match s.queue with
    | [] => s
    | u :: rest =>
      { s with
         queue := rest
         isProcessingRef := true
         inFlight := s.inFlight ++ [u]
         emotion := .thinking
         statusText := "Processing..." }

/-- Continuation of `processNextInQueue` once the judge call resolves:
the outcome branches (or the `catch` on `judgeUnavailable`), followed by
the `finally` block which releases the guard.  With no utterance in
flight there is nothing to resolve. -/
def resolveTurn (s : TurnState) (o : JudgeOutcome) : TurnState :=
  match s.inFlight with
  | [] => s
  | u :: restF =>
    let s1 :=
      match o with
      | .question msg =>
          { s with
             emotion := .neutral
             statusText := "Answered your question!"
             narrated := s.narrated ++ [msg]
             isSpeaking := true }
      | .correct msg =>
          { s with
             emotion := .happy
             statusText := "Correct!"
             narrated := s.narrated ++ ["Correct! " ++ msg]
             isSpeaking := true
             endGameTimers := s.endGameTimers ++ [5000] }
      | .incorrect msg =>
          { s with
             emotion := .sad
             statusText := "Try again!"
             narrated := s.narrated ++ [msg]
             isSpeaking := true }
      | .judgeUnavailable =>
          { s with
             emotion := .neutral
             errorsSurfaced := s.errorsSurfaced + 1 }
    { s1 with
       inFlight := restF
       processed := s1.processed ++ [u]
       isProcessingRef := false }

/-- `useSpeechRecognition.onResult` in AdminPage: push the transcript
and try to advance, but only while the game is active, unmuted and the
narrator is silent. -/
def onSpeechResult (s : TurnState) (t : String) : TurnState :=
  if s.isGameActive && !s.isMuted && !s.isSpeaking then
    processNextInQueue { s with queue := s.queue ++ [t] }
  else s

/-- `handleBackupTextSubmit`: push the trimmed text and try to advance,
rejecting blank input and inactive games. -/
def handleBackupTextSubmit (s : TurnState) (t : String) : TurnState :=
  if t.trim = "" ∨ s.isGameActive = false then s
  else processNextInQueue { s with queue := s.queue ++ [t.trim] }

/-- The synchronous flush inside `useSpeechRecognition.stopListening`:
when the trimmed accumulation buffer is non-blank, it is delivered
through `onResult` — whose guard and `processNextInQueue` still read the
render values of the CURRENT tick, because `setIsMuted` / `endGame` are
asynchronous React state updates.  So the flush runs against the
pre-mute / pre-stop values of `isGameActive`, `isMuted`, `isSpeaking`
and can dequeue and dispatch the front of the queue. -/
def stopListeningFlush (s : TurnState) : TurnState :=
  let flushed := jsTrim s.accumulated
  if flushed ≠ "" then
    onSpeechResult { s with accumulated := "" } flushed
  else s

/-- `handleMuteToggle`: muting calls `stopListening()` (whose
synchronous flush sees the stale pre-mute state), stops narration and
only THEN clears the pending queue; unmuting resumes listening when a
game is active (`startListening` resets the accumulation buffer). -/
def handleMuteToggle (s : TurnState) : TurnState :=
  if !s.isMuted then
    { stopListeningFlush s with isMuted := true, isSpeaking := false, queue := [] }
  else if s.isGameActive then
    { s with isMuted := false, emotion := .listening, accumulated := "" }
  else
    { s with isMuted := false }

/-- `handleStopGame`: `endGame()` (an asynchronous state update, so the
`stopListening()` flush that follows still sees the game as active),
stop capture and narration, reset emotion and only then clear the
queue.  No pending end-of-game timer is cancelled (the source stores no
timer handle). -/
def handleStopGame (s : TurnState) : TurnState :=
  { stopListeningFlush s with
     isGameActive := false
     isSpeaking := false
     emotion := .neutral
     statusText := "Game ended"
     queue := [] }

/-- Synchronous prefix of `handleStartGame`: `startGame()` marks the
session active (word selection lives in the provider model above).  The
queue, the guard and the pending timers are untouched — the source
clears none of them here. -/
def handleStartGame (s : TurnState) : TurnState :=
  { s with
     isGameActive := true
     emotion := .neutral
     statusText := "Generating riddle..." }

/-- A pending `setTimeout(endGame, 5000)` fires: `endGame()` runs no
matter which round is now active. -/
def fireEndGameTimer (s : TurnState) : TurnState :=
  match s.endGameTimers with
  | [] => s
  | _ :: rest =>
    { s with
       endGameTimers := rest
       isGameActive := false
       emotion := .neutral
       statusText := "Game ended" }

/-- The TTS `onEnd` callback wired in `usePiperTTS`: narration has
finished; while the game is active and unmuted, capture resumes and the
emotion returns to listening. -/
def onNarrationEnd (s : TurnState) : TurnState :=
  if s.isGameActive && !s.isMuted then
    { s with isSpeaking := false, emotion := .listening }
  else
    { s with isSpeaking := false }

/-- Events of the turn controller.  `accumulate` is
`recognition.onresult` adding a finalized segment to the accumulation
buffer (the silence-gap delivery of a completed utterance is the
separate `speechResult` event). -/
inductive TEv where
  | speechResult (t : String)
  | textSubmit (t : String)
  | beginTurn
  | finishTurn (o : JudgeOutcome)
  | narrationEnd
  | muteToggle
  | stopGame
  | startGameEv
  | fireTimer
  | accumulate (t : String)
deriving DecidableEq, Repr

/-- One controller transition per event.  `narrationEnd` is the TTS
`onEnd` callback, which resumes the listening emotion while active and
unmuted. -/
def tstep (s : TurnState) : TEv → TurnState
  | .speechResult t => onSpeechResult s t
  | .textSubmit t => handleBackupTextSubmit s t
  | .beginTurn => processNextInQueue s
  | .finishTurn o => resolveTurn s o
  | .narrationEnd => onNarrationEnd s
  | .muteToggle => handleMuteToggle s
  | .stopGame => handleStopGame s
  | .startGameEv => handleStartGame s
  | .fireTimer => fireEndGameTimer s
  | .accumulate t => { s with accumulated := s.accumulated ++ " " ++ t }

/-- Run a list of events from a controller state. -/
def trun (s : TurnState) (evs : List TEv) : TurnState :=
  evs.foldl tstep s

/-- Single-flight invariant of the controller: at most one utterance is
ever awaiting the judge, and the boolean guard is raised exactly while
one is. -/
def TInv (s : TurnState) : Prop :=
  s.inFlight.length ≤ 1 ∧ (s.isProcessingRef = true ↔ s.inFlight ≠ [])

instance (s : TurnState) : Decidable (TInv s) := by
  unfold TInv; infer_instance

/-- An event that enqueues an utterance which the controller accepts:
a speech result, or a text submit with non-blank text. -/
def EnqEv : TEv → Prop
  | .speechResult _ => True
  | .textSubmit t => t.trim ≠ ""
  | _ => False

instance (e : TEv) : Decidable (EnqEv e) := by
  cases e <;> simp [EnqEv] <;> infer_instance

/-- The utterance text an enqueue event carries. -/
def enqueuedText : TEv → String
  | .speechResult t => t
  | .textSubmit t => t.trim
  | _ => ""

/-- Drive the controller to completion: for each listed outcome, resolve
the in-flight turn and run the re-entry scheduled by `finally`
(`setTimeout(processNextInQueue, 100)`). -/
def drive (s : TurnState) : List JudgeOutcome → TurnState
  | [] => s
  | o :: os => drive (tstep (tstep s (.finishTurn o)) .beginTurn) os

/-- How many copies of utterance `u` have reached the dialogue engine:
dequeued and currently awaiting the judge, or already resolved. -/
def dispatchedCount (s : TurnState) (u : String) : Nat :=
  (s.inFlight ++ s.processed).count u

/-- Whether an event could enqueue the utterance `u`. -/
def enqueuesUt (u : String) : TEv → Bool
  | .speechResult t => t == u
  | .textSubmit t => t.trim == u
  | _ => false

/-- Whether an event feeds the speech accumulation buffer. -/
def isAccumulate : TEv → Bool
  | .accumulate _ => true
  | _ => false

/-- A sample controller state with one utterance awaiting the judge: an
active, unmuted, silent game whose turn for the utterance has been
dispatched (used to instantiate the controller theorems). -/
def sampleBusy : TurnState :=
  { queue := []
    isProcessingRef := true
    inFlight := ["mistletoe"]
    processed := []
    isGameActive := true
    isMuted := false
    isSpeaking := false
    emotion := .thinking
    statusText := "Processing..."
    narrated := []
    errorsSurfaced := 0
    endGameTimers := []
    accumulated := "" }

/-- A sample controller state with one utterance queued but not yet
dequeued (the guard is down, e.g. right after a failed turn released
it), the operator still mid-sentence (non-blank accumulation buffer),
game active, unmuted, narrator silent. -/
def sampleMutePending : TurnState :=
  { queue := ["guess"]
    isProcessingRef := false
    inFlight := []
    processed := []
    isGameActive := true
    isMuted := false
    isSpeaking := false
    emotion := .listening
    statusText := "Listening..."
    narrated := []
    errorsSurfaced := 0
    endGameTimers := []
    accumulated := " one more thing" }

/-! ## LM Studio response processing (`useLMStudio.handleUserInput`)

The judge reply is free text; `handleUserInput` classifies it by marker
containment and strips markers with JavaScript `String.replace`, which
replaces only the FIRST occurrence of a plain-string pattern.  Strings
are modelled as `List Char`; `hasTag` is `String.includes`,
`removeFirst` is single-occurrence `replace`, `trimSeq` is
`String.trim`. -/

/-- Whether `pat` occurs at the start of `l`. -/
def startsWith : List Char → List Char → Bool
  | _, [] => true
  | [], _ :: _ => false
  | c :: cs, p :: ps => c = p && startsWith cs ps

/-- JavaScript `String.includes`: whether `pat` occurs anywhere in `l`. -/
def hasTag : List Char → List Char → Bool
  | [], pat => pat.isEmpty
  | c :: cs, pat => startsWith (c :: cs) pat || hasTag cs pat

/-- JavaScript `String.replace(pat, empty)`: remove the first occurrence
of `pat`, leaving the string unchanged when `pat` does not occur. -/
def removeFirst : List Char → List Char → List Char
  | [], _ => []
  | c :: cs, pat =>
    if startsWith (c :: cs) pat then (c :: cs).drop pat.length
    else c :: removeFirst cs pat

/-- The `[QUESTION]` marker. -/
def qTag : List Char := "[QUESTION]".toList

/-- The `[CORRECT]` marker. -/
def cTag : List Char := "[CORRECT]".toList

/-- The `[INCORRECT]` marker. -/
def iTag : List Char := "[INCORRECT]".toList

/-- Result record of `handleUserInput`. -/
structure JudgeReply where
  isCorrect : Bool
  isQuestion : Bool
  response : List Char
deriving DecidableEq, Repr

/-- The response post-processing of `handleUserInput`: classification by
marker containment, then `[CORRECT]`, `[INCORRECT]`, `[QUESTION]`
removed in that order (first occurrence each) and the result trimmed.
The prompt construction and transport are not modelled: the reply
depends on the chat response text alone. -/
def handleUserInput (response : List Char) : JudgeReply :=
  { isCorrect := hasTag response cTag
    isQuestion := hasTag response qTag
    response :=
      trimSeq (removeFirst (removeFirst (removeFirst response cTag) iTag) qTag) }

/-! ## Speech capture stop (`useSpeechRecognition.stopListening`) -/

/-- State of the speech-capture hook: the accumulation buffer of
finalized-but-undelivered transcript, the pending restart and silence
timers, the intentional-stop flag and the listening flag. -/
structure SpeechState where
  accumulated : String
  restartPending : Bool
  silencePending : Bool
  intentionalStop : Bool
  listening : Bool
deriving DecidableEq, Repr

/-- `recognition.onresult` receiving a finalized segment: append it to
the accumulation buffer (with the source's space separator) and re-arm
the silence timer. -/
def accumulateFinal (s : SpeechState) (finalTranscript : String) : SpeechState :=
  { s with
     accumulated := s.accumulated ++ " " ++ finalTranscript
     silencePending := true }

/-- `stopListening`: set the intentional-stop flag, cancel the restart
and silence timers, flush the trimmed accumulation buffer as one final
utterance when non-empty (clearing the buffer), and request recognition
stop.  Returns the new state and the utterance delivered to `onResult`,
if any. -/
def stopListening (s : SpeechState) : SpeechState × Option String :=
  let s1 :=
    { s with
       intentionalStop := true
       restartPending := false
       silencePending := false }
  let fullTranscript := jsTrim s.accumulated
  if fullTranscript ≠ "" then
    ({ s1 with accumulated := "" }, some fullTranscript)
  else
    (s1, none)

/-! # Theorems -/

/-! ## Hint consumption (C6) and the hint-counter invariant (C7) -/

theorem useHint_nonpos (g : GState) (h : g.hintsRemaining ≤ 0) :
    useHint g = (false, g) := by
  simp [useHint, h]

theorem useHint_pos (g : GState) (h : 0 < g.hintsRemaining) :
    useHint g =
      (true,
       { g with
          hintsRemaining := g.hintsRemaining - 1
          hintsUsed := g.hintsUsed + 1 }) := by
  have h2 : ¬ g.hintsRemaining ≤ 0 := by omega
  simp [useHint, h2]

theorem hintIter_zero_fixed (g : GState) (h : g.hintsRemaining = 0) :
    ∀ k, hintIter k g = g := by
  intro k
  induction k with
  | zero => rfl
  | succ n ih =>
    show hintIter n (useHint g).2 = g
    rw [useHint_nonpos g (by omega)]
    exact ih

theorem hintIter_nonneg (k : Nat) :
    ∀ g : GState, 0 ≤ g.hintsRemaining → 0 ≤ (hintIter k g).hintsRemaining := by
  induction k with
  | zero => intro g h; exact h
  | succ n ih =>
    intro g h
    show 0 ≤ (hintIter n (useHint g).2).hintsRemaining
    by_cases hz : g.hintsRemaining ≤ 0
    · rw [useHint_nonpos g hz]; exact ih g h
    · rw [useHint_pos g (by omega)]
      exact ih _ (by simp; omega)

/-- C6: `useHint` returns false with no mutation when no hints remain,
otherwise returns true, decrementing `hintsRemaining` and incrementing
`hintsUsed`; every call past exhaustion returns false and leaves the
state fixed, and `hintsRemaining` never drops below 0 under repeated
calls. -/
theorem useHint_exhaustion_spec :
    ∀ g : GState,
      (g.hintsRemaining = 0 → useHint g = (false, g)) ∧
      (0 < g.hintsRemaining →
        useHint g =
          (true,
           { g with
              hintsRemaining := g.hintsRemaining - 1
              hintsUsed := g.hintsUsed + 1 })) ∧
      (g.hintsRemaining = 0 →
        ∀ k, hintIter k g = g ∧ (useHint (hintIter k g)).1 = false) ∧
      (0 ≤ g.hintsRemaining → ∀ k, 0 ≤ (hintIter k g).hintsRemaining) := by
  intro g
  refine ⟨fun h => useHint_nonpos g (by omega), fun h => useHint_pos g h, fun h k => ?_,
    fun h k => hintIter_nonneg k g h⟩
  have hfix := hintIter_zero_fixed g h k
  refine ⟨hfix, ?_⟩
  rw [hfix, useHint_nonpos g (by omega)]

/-- Closed instance of C6: one hint remaining is consumed; at zero
remaining, three further calls leave the state fixed. -/
theorem useHint_exhaustion_spec_witness :
    useHint { DEFAULT_GAME_STATE with hintsRemaining := 1 } =
      (true,
       { { DEFAULT_GAME_STATE with hintsRemaining := 1 } with
          hintsRemaining := (1 : Int) - 1
          hintsUsed := DEFAULT_GAME_STATE.hintsUsed + 1 }) ∧
    hintIter 3 { DEFAULT_GAME_STATE with hintsRemaining := 0 } =
      { DEFAULT_GAME_STATE with hintsRemaining := 0 } ∧
    (useHint (hintIter 3 { DEFAULT_GAME_STATE with hintsRemaining := 0 })).1 = false := by
  refine ⟨(useHint_exhaustion_spec _).2.1 (by decide), ?_, ?_⟩
  · exact ((useHint_exhaustion_spec
      { DEFAULT_GAME_STATE with hintsRemaining := 0 }).2.2.1 (by decide) 3).1
  · exact ((useHint_exhaustion_spec
      { DEFAULT_GAME_STATE with hintsRemaining := 0 }).2.2.1 (by decide) 3).2

/-- C7 fails on the code: changing `hintsAllowed` mid-session does not
rescale the counters, so from the initial state (counters 3/0 for the
default allowance 3) a single slider move to 1 gives a reachable state
with `hintsRemaining = 3`, `hintsAllowed = 1`, `hintsUsed = 0`:
`hintsRemaining ≠ hintsAllowed - hintsUsed` and
`hintsRemaining > hintsAllowed`. -/
theorem hintInvariant_counterexample :
    ¬ ((grun initialProvider [GOp.setHintsAllowed 1]).gameState.hintsRemaining =
        (grun initialProvider [GOp.setHintsAllowed 1]).params.hintsAllowed -
          (grun initialProvider [GOp.setHintsAllowed 1]).gameState.hintsUsed ∧
       (grun initialProvider [GOp.setHintsAllowed 1]).gameState.hintsRemaining ≤
        (grun initialProvider [GOp.setHintsAllowed 1]).params.hintsAllowed) := by
  decide

theorem gstep_hintInv (s : ProviderState) (op : GOp) (h : HintInv s) :
    HintInv (gstep s op) := by
  obtain ⟨h1, h2, h3, h4, h5⟩ := h
  cases op with
  | startGame pick =>
    refine ⟨h5, by simp [gstep, startGame], ?_, ?_, h5⟩ <;>
      simp [gstep, startGame]
  | endGame => exact ⟨h1, h2, h3, h4, h5⟩
  | useHint =>
    by_cases hz : s.gameState.hintsRemaining ≤ 0
    · simpa [gstep, useHint_nonpos s.gameState hz] using ⟨h1, h2, h3, h4, h5⟩
    · rw [show gstep s .useHint =
          { s with gameState := (useHint s.gameState).2 } from rfl,
        useHint_pos s.gameState (by omega)]
      exact ⟨by simp; omega, by simp; omega, by simp; omega, by simp; omega, h5⟩
  | setHintsAllowed v =>
    exact ⟨h1, h2, h3, h4, Int.natCast_nonneg v⟩
  | saveWordList lines => exact ⟨h1, h2, h3, h4, h5⟩
  | setRiddle r => exact ⟨h1, h2, h3, h4, h5⟩
  | setEmotion e => exact ⟨h1, h2, h3, h4, h5⟩

/-- C7 amended: in every state reachable through the session operations,
`hintsRemaining + hintsUsed` equals the `hintsAllowed` captured at the
most recent `startGame` (initially the default 3), with
`0 ≤ hintsRemaining ≤` that captured allowance and `0 ≤ hintsUsed`;
the equation with the live `hintsAllowed` parameter does not survive
mid-session parameter changes. -/
theorem hintInvariant_amended :
    ∀ ops : List GOp, HintInv (grun initialProvider ops) := by
  have hstep : ∀ (ops : List GOp) (s : ProviderState),
      HintInv s → HintInv (grun s ops) := by
    intro ops
    induction ops with
    | nil => intro s h; exact h
    | cons op rest ih =>
      intro s h
      exact ih (gstep s op) (gstep_hintInv s op h)
  intro ops
  exact hstep ops initialProvider (by decide)

/-! ## Secret word / riddle emptiness (C8) -/

/-- C8 fails on the code in both directions: after
`startGame` then `endGame` the session is inactive yet the secret word
is preserved (non-empty), and right after `startGame` the session is
active while the riddle is still empty (it is only filled once
generation completes). -/
theorem wordEmptiness_counterexample :
    ¬ (((grun initialProvider [GOp.startGame 0, GOp.endGame]).gameState.isGameActive
          = false →
        (grun initialProvider [GOp.startGame 0, GOp.endGame]).gameState.currentWord
          = "" ∧
        (grun initialProvider [GOp.startGame 0, GOp.endGame]).gameState.currentRiddle
          = "") ∧
       ((grun initialProvider [GOp.startGame 0]).gameState.isGameActive = true →
        (grun initialProvider [GOp.startGame 0]).gameState.currentWord ≠ "" ∧
        (grun initialProvider [GOp.startGame 0]).gameState.currentRiddle ≠ "")) := by
  decide

theorem getD_mod_mem (l : List String) (h : l ≠ []) (p : Nat) :
    l.getD (p % l.length) "" ∈ l := by
  have hlt : p % l.length < l.length := Nat.mod_lt _ (List.length_pos.mpr h)
  rw [List.getD_eq_getElem l "" hlt]
  exact List.getElem_mem hlt

theorem startGameSel_mem (wordList used : List String) (pick : Nat)
    (h : wordList ≠ []) : (startGameSel wordList used pick).1 ∈ wordList := by
  simp only [startGameSel]
  by_cases hav : (wordList.filter (fun w => !used.contains w)).length > 0
  · simp only [if_pos hav]
    have hne : wordList.filter (fun w => !used.contains w) ≠ [] := by
      intro hnil
      rw [hnil] at hav
      simp at hav
    exact List.filter_subset' wordList (getD_mod_mem _ hne pick)
  · simp only [if_neg hav]
    exact getD_mod_mem wordList h pick

theorem saveWords_mem (lines : List String) (w : String)
    (h : w ∈ saveWords lines) : w ≠ "" := by
  intro hw
  subst hw
  simp [saveWords, List.mem_filter] at h

theorem gstep_wordInv (s : ProviderState) (op : GOp) (hwf : wfOp op = true)
    (h : WordInv s) : WordInv (gstep s op) := by
  obtain ⟨h1, h2, h3⟩ := h
  cases op with
  | startGame pick =>
    refine ⟨h1, h2, fun _ => ?_⟩
    have hmem : (startGameSel s.params.wordList s.usedWords pick).1 ∈
        s.params.wordList := startGameSel_mem _ _ _ h1
    simpa [gstep, startGame] using h2 _ hmem
  | endGame =>
    exact ⟨h1, h2, by simp [gstep, endGame]⟩
  | useHint =>
    refine ⟨h1, h2, ?_⟩
    by_cases hz : s.gameState.hintsRemaining ≤ 0
    · simpa [gstep, useHint_nonpos s.gameState hz] using h3
    · rw [show gstep s .useHint =
          { s with gameState := (useHint s.gameState).2 } from rfl,
        useHint_pos s.gameState (by omega)]
      simpa using h3
  | setHintsAllowed v => exact ⟨h1, h2, h3⟩
  | saveWordList lines =>
    refine ⟨?_, ?_, h3⟩
    · simp only [wfOp] at hwf
      simpa [gstep, List.isEmpty_iff] using hwf
    · intro w hw
      exact saveWords_mem lines w hw
  | setRiddle r => exact ⟨h1, h2, h3⟩
  | setEmotion e => exact ⟨h1, h2, h3⟩

/-- C8 amended: in every state reachable through wellformed session
operations (word-list saves keep at least one non-blank word), the
configured pool is non-empty with non-blank words and the secret word is
non-blank whenever the game is active; but the word and riddle are
preserved by `endGame` and the riddle is empty right after `startGame`,
so emptiness of word/riddle is NOT equivalent to inactivity. -/
theorem wordEmptiness_amended :
    ∀ ops : List GOp, (∀ op ∈ ops, wfOp op = true) →
      WordInv (grun initialProvider ops) := by
  have hstep : ∀ (ops : List GOp) (s : ProviderState),
      (∀ op ∈ ops, wfOp op = true) → WordInv s → WordInv (grun s ops) := by
    intro ops
    induction ops with
    | nil => intro s _ h; exact h
    | cons op rest ih =>
      intro s hwf h
      exact ih (gstep s op) (fun o ho => hwf o (List.mem_cons_of_mem _ ho))
        (gstep_wordInv s op (hwf op (List.mem_cons_self _ _)) h)
  intro ops hwf
  exact hstep ops initialProvider hwf (by decide)

/-- Closed instance of the amended C8: a start / riddle-arrival / end
round through wellformed operations satisfies the word invariant. -/
theorem wordEmptiness_amended_witness :
    WordInv (grun initialProvider
      [GOp.startGame 7, GOp.setRiddle "It falls in winter", GOp.endGame]) := by
  exact wordEmptiness_amended
    [GOp.startGame 7, GOp.setRiddle "It falls in winter", GOp.endGame]
    (by decide)

/-! ## Word-pool selection (C5) -/

theorem insertUsed_not_mem (used : List String) (w : String) (h : w ∉ used) :
    insertUsed used w = used ++ [w] := by
  unfold insertUsed
  have hc : used.contains w = false := by simpa using h
  rw [hc]
  rfl

theorem startGameSel_avail (wordList used : List String) (pick : Nat)
    (hpos : (wordList.filter (fun w => !used.contains w)).length > 0) :
    startGameSel wordList used pick =
      ((wordList.filter (fun w => !used.contains w)).getD
         (pick % (wordList.filter (fun w => !used.contains w)).length) "",
       insertUsed used
         ((wordList.filter (fun w => !used.contains w)).getD
           (pick % (wordList.filter (fun w => !used.contains w)).length) "")) := by
  have hnz : ¬ (wordList.filter (fun w => !used.contains w)).length = 0 := by
    omega
  simp only [startGameSel, if_pos hpos, if_neg hnz]

theorem startGameSel_empty_avail (wordList used : List String) (pick : Nat)
    (hz : (wordList.filter (fun w => !used.contains w)).length = 0) :
    startGameSel wordList used pick =
      (wordList.getD (pick % wordList.length) "",
       insertUsed [] (wordList.getD (pick % wordList.length) "")) := by
  have hnpos : ¬ (wordList.filter (fun w => !used.contains w)).length > 0 := by
    omega
  simp only [startGameSel, if_pos hz, if_neg hnpos]

theorem startGameSel_not_exhausted (wordList used : List String) (pick : Nat)
    (hex : ∃ w, w ∈ wordList ∧ w ∉ used) :
    (startGameSel wordList used pick).1 ∈ wordList ∧
    (startGameSel wordList used pick).1 ∉ used ∧
    (startGameSel wordList used pick).2 =
      used ++ [(startGameSel wordList used pick).1] := by
  obtain ⟨w, hw, hwu⟩ := hex
  have hwav : w ∈ wordList.filter (fun x => !used.contains x) :=
    List.mem_filter.mpr ⟨hw, by simpa using hwu⟩
  have hne : wordList.filter (fun w => !used.contains w) ≠ [] :=
    List.ne_nil_of_mem hwav
  have hpos : (wordList.filter (fun w => !used.contains w)).length > 0 :=
    List.length_pos.mpr hne
  rw [startGameSel_avail wordList used pick hpos]
  have hsel : (wordList.filter (fun w => !used.contains w)).getD
      (pick % (wordList.filter (fun w => !used.contains w)).length) "" ∈
      wordList.filter (fun w => !used.contains w) :=
    getD_mod_mem _ hne pick
  have hmem := List.mem_filter.mp hsel
  have hnotused : (wordList.filter (fun w => !used.contains w)).getD
      (pick % (wordList.filter (fun w => !used.contains w)).length) "" ∉ used := by
    simpa using hmem.2
  exact ⟨hmem.1, hnotused, insertUsed_not_mem used _ hnotused⟩

theorem startGameSel_exhausted (wordList used : List String) (pick : Nat)
    (hne : wordList ≠ []) (hall : ∀ w ∈ wordList, w ∈ used) :
    (startGameSel wordList used pick).1 ∈ wordList ∧
    (startGameSel wordList used pick).2 = [(startGameSel wordList used pick).1] := by
  have hfil : wordList.filter (fun w => !used.contains w) = [] := by
    rw [List.filter_eq_nil_iff]
    intro x hx
    simpa using hall x hx
  have hz : (wordList.filter (fun w => !used.contains w)).length = 0 := by
    rw [hfil]
    rfl
  rw [startGameSel_empty_avail wordList used pick hz]
  refine ⟨getD_mod_mem wordList hne pick, ?_⟩
  exact insertUsed_not_mem [] _ (by simp)

theorem runSelections_perm (wordList : List String) (hnd : wordList.Nodup) :
    ∀ (picks : List Nat) (used : List String), used.Nodup → used ⊆ wordList →
      picks.length + used.length = wordList.length →
      ((runSelections wordList used picks).1 ++ used).Perm wordList ∧
      (runSelections wordList used picks).2 =
        used ++ (runSelections wordList used picks).1 := by
  intro picks
  induction picks with
  | nil =>
    intro used hu hsub hlen
    constructor
    · have h1 : (runSelections wordList used []).1 = [] := rfl
      rw [h1, List.nil_append]
      have hge : wordList.length ≤ used.length := by
        simp only [List.length_nil, Nat.zero_add] at hlen
        omega
      exact (List.subperm_of_subset hu hsub).perm_of_length_le hge
    · show used = used ++ []
      simp
  | cons p ps ih =>
    intro used hu hsub hlen
    have hex : ∃ w, w ∈ wordList ∧ w ∉ used := by
      by_contra hc
      push_neg at hc
      have hsub2 : wordList ⊆ used := fun w hw => hc w hw
      have hle := (List.subperm_of_subset hnd hsub2).length_le
      simp only [List.length_cons] at hlen
      omega
    obtain ⟨hmem, hnotmem, hused2⟩ :=
      startGameSel_not_exhausted wordList used p hex
    have hnd2 : (used ++ [(startGameSel wordList used p).1]).Nodup := by
      rw [List.nodup_append]
      refine ⟨hu, List.nodup_singleton _, ?_⟩
      intro x hx hx2
      rw [List.mem_singleton] at hx2
      subst hx2
      exact hnotmem hx
    have hsub2 : used ++ [(startGameSel wordList used p).1] ⊆ wordList :=
      List.append_subset.mpr ⟨hsub, by simpa using hmem⟩
    have hlen2 : ps.length + (used ++ [(startGameSel wordList used p).1]).length
        = wordList.length := by
      simp at hlen ⊢
      omega
    obtain ⟨ihperm, ih2⟩ := ih (used ++ [(startGameSel wordList used p).1])
      hnd2 hsub2 hlen2
    have hrun : runSelections wordList used (p :: ps) =
        ((startGameSel wordList used p).1 ::
          (runSelections wordList (startGameSel wordList used p).2 ps).1,
         (runSelections wordList (startGameSel wordList used p).2 ps).2) := rfl
    rw [hrun, hused2]
    constructor
    · show ((startGameSel wordList used p).1 ::
        (runSelections wordList (used ++ [(startGameSel wordList used p).1]) ps).1
          ++ used).Perm wordList
      refine List.Perm.trans ?_ ihperm
      have hstep : ((startGameSel wordList used p).1 ::
          ((runSelections wordList (used ++ [(startGameSel wordList used p).1]) ps).1
            ++ used)).Perm
          (((runSelections wordList (used ++ [(startGameSel wordList used p).1]) ps).1
            ++ used) ++ [(startGameSel wordList used p).1]) :=
        (List.perm_append_singleton _ _).symm
      simpa [List.append_assoc] using hstep
    · show (runSelections wordList (used ++ [(startGameSel wordList used p).1]) ps).2
        = used ++ (startGameSel wordList used p).1 ::
            (runSelections wordList (used ++ [(startGameSel wordList used p).1]) ps).1
      rw [ih2]
      simp

/-- C5: for every duplicate-free non-empty word pool, a used word is
never selected while an unused word remains; any `N = |pool|`
consecutive selections (for every random choice sequence) produce each
word exactly once (a permutation of the pool, with the used set ending
equal to the selections); and once every word is used, the used set is
reset before the next selection (the new used set is exactly the fresh
selection). -/
theorem wordPool_selection_spec :
    ∀ wordList : List String, wordList.Nodup → wordList ≠ [] →
      (∀ used pick, (∃ w, w ∈ wordList ∧ w ∉ used) →
        (startGameSel wordList used pick).1 ∈ wordList ∧
        (startGameSel wordList used pick).1 ∉ used) ∧
      (∀ picks : List Nat, picks.length = wordList.length →
        ((runSelections wordList [] picks).1).Perm wordList ∧
        (runSelections wordList [] picks).2 =
          (runSelections wordList [] picks).1) ∧
      (∀ used pick, (∀ w ∈ wordList, w ∈ used) →
        (startGameSel wordList used pick).1 ∈ wordList ∧
        (startGameSel wordList used pick).2 =
          [(startGameSel wordList used pick).1]) := by
  intro wordList hnd hne
  refine ⟨?_, ?_, ?_⟩
  · intro used pick hex
    obtain ⟨h1, h2, _⟩ := startGameSel_not_exhausted wordList used pick hex
    exact ⟨h1, h2⟩
  · intro picks hlen
    obtain ⟨hperm, h2⟩ := runSelections_perm wordList hnd picks []
      List.nodup_nil (by intro x hx; cases hx) (by simpa using hlen)
    refine ⟨by simpa using hperm, by simpa using h2⟩
  · intro used pick hall
    exact startGameSel_exhausted wordList used pick hne hall

/-- Closed instance of C5: on the pool of two words, two selections
(for an arbitrary choice sequence) cover both words exactly once, and a
selection from the fully-used pool resets the used set. -/
theorem wordPool_selection_spec_witness :
    ((runSelections ["red", "green"] [] [1, 5]).1).Perm ["red", "green"] ∧
    (startGameSel ["red", "green"] ["red", "green"] 3).2 =
      [(startGameSel ["red", "green"] ["red", "green"] 3).1] := by
  refine ⟨((wordPool_selection_spec ["red", "green"] (by decide)
    (by decide)).2.1 [1, 5] (by decide)).1, ?_⟩
  exact ((wordPool_selection_spec ["red", "green"] (by decide)
    (by decide)).2.2 ["red", "green"] 3 (by decide)).2

/-! ## Turn controller: basic step lemmas -/

theorem processNextInQueue_busy (s : TurnState) (h : s.isProcessingRef = true) :
    processNextInQueue s = s := by
  simp [processNextInQueue, h]

theorem processNextInQueue_emptyq (s : TurnState) (h : s.queue = []) :
    processNextInQueue s = s := by
  simp [processNextInQueue, h]

theorem processNextInQueue_dispatch (s : TurnState) (u : String)
    (rest : List String) (hq : s.queue = u :: rest)
    (href : s.isProcessingRef = false) (ha : s.isGameActive = true)
    (hm : s.isMuted = false) :
    processNextInQueue s =
      { s with
         queue := rest
         isProcessingRef := true
         inFlight := s.inFlight ++ [u]
         emotion := .thinking
         statusText := "Processing..." } := by
  simp [processNextInQueue, hq, href, ha, hm]

theorem processNextInQueue_frame (s : TurnState) :
    (processNextInQueue s).isGameActive = s.isGameActive ∧
    (processNextInQueue s).isMuted = s.isMuted ∧
    (processNextInQueue s).isSpeaking = s.isSpeaking ∧
    (processNextInQueue s).processed = s.processed ∧
    (processNextInQueue s).narrated = s.narrated ∧
    (processNextInQueue s).errorsSurfaced = s.errorsSurfaced ∧
    (processNextInQueue s).endGameTimers = s.endGameTimers ∧
    (processNextInQueue s).inFlight ++ (processNextInQueue s).queue =
      s.inFlight ++ s.queue := by
  unfold processNextInQueue
  split
  · exact ⟨rfl, rfl, rfl, rfl, rfl, rfl, rfl, rfl⟩
  · split
    · exact ⟨rfl, rfl, rfl, rfl, rfl, rfl, rfl, rfl⟩
    · split
      · exact ⟨rfl, rfl, rfl, rfl, rfl, rfl, rfl, rfl⟩
      · next u rest heq =>
          refine ⟨rfl, rfl, rfl, rfl, rfl, rfl, rfl, ?_⟩
          rw [heq]
          simp

theorem processNextInQueue_tinv (s : TurnState) (h : TInv s) :
    TInv (processNextInQueue s) := by
  unfold processNextInQueue
  split
  · exact h
  · next hg1 =>
    split
    · exact h
    · split
      · exact h
      · next u rest heq =>
          have href : s.isProcessingRef = false := by
            simp only [Bool.or_eq_true, not_or] at hg1
            simpa using hg1.1
          have hf : s.inFlight = [] := by
            by_contra hne
            rw [h.2.mpr hne] at href
            cases href
          refine ⟨?_, ?_⟩
          · rw [hf]
            simp
          · rw [hf]
            simp

theorem resolveTurn_noflight (s : TurnState) (o : JudgeOutcome)
    (h : s.inFlight = []) : resolveTurn s o = s := by
  simp [resolveTurn, h]

theorem resolveTurn_spec (s : TurnState) (u : String) (o : JudgeOutcome)
    (h : s.inFlight = u :: []) :
    (resolveTurn s o).inFlight = [] ∧
    (resolveTurn s o).isProcessingRef = false ∧
    (resolveTurn s o).processed = s.processed ++ [u] ∧
    (resolveTurn s o).queue = s.queue ∧
    (resolveTurn s o).isGameActive = s.isGameActive ∧
    (resolveTurn s o).isMuted = s.isMuted := by
  cases o <;> simp [resolveTurn, h]

theorem resolveTurn_tinv (s : TurnState) (o : JudgeOutcome) (h : TInv s) :
    TInv (resolveTurn s o) := by
  rcases hf : s.inFlight with _ | ⟨u, restF⟩
  · rw [resolveTurn_noflight s o hf]
    exact h
  · have hlen := h.1
    rw [hf] at hlen
    simp only [List.length_cons] at hlen
    have hrest : restF = [] := List.eq_nil_of_length_eq_zero (by omega)
    subst hrest
    obtain ⟨h1, h2, _, _, _, _⟩ := resolveTurn_spec s u o hf
    exact ⟨by rw [h1]; simp, by rw [h1, h2]; simp⟩

theorem onSpeechResult_tinv (s : TurnState) (t : String) (h : TInv s) :
    TInv (onSpeechResult s t) := by
  unfold onSpeechResult
  split
  · exact processNextInQueue_tinv _ h
  · exact h

theorem stopListeningFlush_tinv (s : TurnState) (h : TInv s) :
    TInv (stopListeningFlush s) := by
  simp only [stopListeningFlush]
  split
  · exact onSpeechResult_tinv _ _ h
  · exact h

theorem tstep_tinv (s : TurnState) (e : TEv) (h : TInv s) : TInv (tstep s e) := by
  cases e with
  | speechResult t => exact onSpeechResult_tinv s t h
  | textSubmit t =>
    show TInv (handleBackupTextSubmit s t)
    unfold handleBackupTextSubmit
    split
    · exact h
    · exact processNextInQueue_tinv _ h
  | beginTurn => exact processNextInQueue_tinv s h
  | finishTurn o => exact resolveTurn_tinv s o h
  | narrationEnd =>
    show TInv (onNarrationEnd s)
    unfold onNarrationEnd
    split
    · exact h
    · exact h
  | muteToggle =>
    show TInv (handleMuteToggle s)
    unfold handleMuteToggle
    split
    · exact stopListeningFlush_tinv s h
    · split
      · exact h
      · exact h
  | stopGame => exact stopListeningFlush_tinv s h
  | startGameEv => exact h
  | fireTimer =>
    show TInv (fireEndGameTimer s)
    unfold fireEndGameTimer
    split
    · exact h
    · exact h
  | accumulate t => exact h

theorem trun_tinv (evs : List TEv) : ∀ s, TInv s → TInv (trun s evs) := by
  induction evs with
  | nil => intro s h; exact h
  | cons e rest ih => intro s h; exact ih _ (tstep_tinv s e h)

/-! ## Turn controller: enqueuing and draining (C1) -/

theorem enq_step (s : TurnState) (e : TEv) (he : EnqEv e)
    (ha : s.isGameActive = true) (hm : s.isMuted = false)
    (hs : s.isSpeaking = false)
    (hrq : s.isProcessingRef = true ∨ s.queue = []) :
    (tstep s e).isGameActive = true ∧ (tstep s e).isMuted = false ∧
    (tstep s e).isSpeaking = false ∧
    ((tstep s e).isProcessingRef = true ∨ (tstep s e).queue = []) ∧
    (tstep s e).processed = s.processed ∧
    (tstep s e).inFlight ++ (tstep s e).queue =
      s.inFlight ++ s.queue ++ [enqueuedText e] := by
  cases e with
  | speechResult t =>
    simp only [tstep]
    have hcond : (s.isGameActive && !s.isMuted && !s.isSpeaking) = true := by
      rw [ha, hm, hs]
      rfl
    unfold onSpeechResult
    rw [if_pos hcond]
    obtain ⟨f1, f2, f3, f4, _, _, _, f8⟩ :=
      processNextInQueue_frame { s with queue := s.queue ++ [t] }
    refine ⟨by rw [f1]; exact ha, by rw [f2]; exact hm, by rw [f3]; exact hs,
      ?_, f4, ?_⟩
    · by_cases hb : s.isProcessingRef = true
      · left
        rw [processNextInQueue_busy { s with queue := s.queue ++ [t] } hb]
        exact hb
      · have hb2 : s.isProcessingRef = false := by simpa using hb
        rcases hrq with href | hqe
        · exact absurd href hb
        · right
          have hq1 : ({ s with queue := s.queue ++ [t]} : TurnState).queue
              = t :: [] := by
            rw [show ({ s with queue := s.queue ++ [t]} : TurnState).queue
              = s.queue ++ [t] from rfl, hqe]
            rfl
          rw [processNextInQueue_dispatch { s with queue := s.queue ++ [t] }
            t [] hq1 hb2 ha hm]
    · rw [f8]
      show s.inFlight ++ (s.queue ++ [t]) = s.inFlight ++ s.queue ++ [t]
      simp
  | textSubmit t =>
    simp only [tstep]
    have hne : t.trim ≠ "" := he
    have hcond : ¬ (t.trim = "" ∨ s.isGameActive = false) := by
      rw [ha]
      simp [hne]
    unfold handleBackupTextSubmit
    rw [if_neg hcond]
    obtain ⟨f1, f2, f3, f4, _, _, _, f8⟩ :=
      processNextInQueue_frame { s with queue := s.queue ++ [t.trim] }
    refine ⟨by rw [f1]; exact ha, by rw [f2]; exact hm, by rw [f3]; exact hs,
      ?_, f4, ?_⟩
    · by_cases hb : s.isProcessingRef = true
      · left
        rw [processNextInQueue_busy { s with queue := s.queue ++ [t.trim] } hb]
        exact hb
      · have hb2 : s.isProcessingRef = false := by simpa using hb
        rcases hrq with href | hqe
        · exact absurd href hb
        · right
          have hq1 : ({ s with queue := s.queue ++ [t.trim]} : TurnState).queue
              = t.trim :: [] := by
            rw [show ({ s with queue := s.queue ++ [t.trim]} : TurnState).queue
              = s.queue ++ [t.trim] from rfl, hqe]
            rfl
          rw [processNextInQueue_dispatch { s with queue := s.queue ++ [t.trim] }
            t.trim [] hq1 hb2 ha hm]
    · rw [f8]
      show s.inFlight ++ (s.queue ++ [t.trim]) = s.inFlight ++ s.queue ++ [t.trim]
      simp
  | beginTurn => exact he.elim
  | finishTurn o => exact he.elim
  | narrationEnd => exact he.elim
  | muteToggle => exact he.elim
  | stopGame => exact he.elim
  | startGameEv => exact he.elim
  | fireTimer => exact he.elim
  | accumulate t => exact he.elim

theorem enq_run (evs : List TEv) : ∀ s : TurnState, (∀ e ∈ evs, EnqEv e) →
    s.isGameActive = true → s.isMuted = false → s.isSpeaking = false →
    (s.isProcessingRef = true ∨ s.queue = []) →
    (trun s evs).isGameActive = true ∧ (trun s evs).isMuted = false ∧
    (trun s evs).isSpeaking = false ∧
    ((trun s evs).isProcessingRef = true ∨ (trun s evs).queue = []) ∧
    (trun s evs).processed = s.processed ∧
    (trun s evs).inFlight ++ (trun s evs).queue =
      s.inFlight ++ s.queue ++ evs.map enqueuedText := by
  induction evs with
  | nil =>
    intro s _ ha hm hs hrq
    refine ⟨ha, hm, hs, hrq, rfl, ?_⟩
    show s.inFlight ++ s.queue = s.inFlight ++ s.queue ++ List.map enqueuedText []
    simp
  | cons e rest ih =>
    intro s hall ha hm hs hrq
    obtain ⟨g1, g2, g3, g4, g5, g6⟩ :=
      enq_step s e (hall e (List.mem_cons_self _ _)) ha hm hs hrq
    obtain ⟨r1, r2, r3, r4, r5, r6⟩ :=
      ih (tstep s e) (fun x hx => hall x (List.mem_cons_of_mem _ hx)) g1 g2 g3 g4
    refine ⟨r1, r2, r3, r4,
      by show (trun (tstep s e) rest).processed = s.processed; rw [r5, g5], ?_⟩
    show (trun (tstep s e) rest).inFlight ++ (trun (tstep s e) rest).queue =
      s.inFlight ++ s.queue ++ List.map enqueuedText (e :: rest)
    rw [r6, g6]
    simp

theorem drive_run (os : List JudgeOutcome) : ∀ s : TurnState, TInv s →
    s.isGameActive = true → s.isMuted = false →
    (s.isProcessingRef = true ∨ s.queue = []) →
    os.length = s.inFlight.length + s.queue.length →
    (drive s os).processed = s.processed ++ s.inFlight ++ s.queue ∧
    (drive s os).queue = [] ∧ (drive s os).inFlight = [] ∧
    (drive s os).isProcessingRef = false := by
  induction os with
  | nil =>
    intro s hinv _ _ hrq hlen
    simp only [List.length_nil] at hlen
    have hfe : s.inFlight = [] := List.eq_nil_of_length_eq_zero (by omega)
    have hqe : s.queue = [] := List.eq_nil_of_length_eq_zero (by omega)
    have hrf : s.isProcessingRef = false := by
      by_cases hb : s.isProcessingRef = true
      · exact absurd hfe (hinv.2.mp hb)
      · simpa using hb
    refine ⟨?_, hqe, hfe, hrf⟩
    show s.processed = s.processed ++ s.inFlight ++ s.queue
    rw [hfe, hqe]
    simp
  | cons o os ih =>
    intro s hinv ha hm hrq hlen
    have hstep : drive s (o :: os) =
        drive (processNextInQueue (resolveTurn s o)) os := rfl
    by_cases hb : s.isProcessingRef = true
    · have hfne : s.inFlight ≠ [] := hinv.2.mp hb
      obtain ⟨u, hfu⟩ : ∃ u, s.inFlight = u :: [] := by
        rcases hfl : s.inFlight with _ | ⟨u, restF⟩
        · exact absurd hfl hfne
        · have hl := hinv.1
          rw [hfl] at hl
          simp only [List.length_cons] at hl
          have : restF = [] := List.eq_nil_of_length_eq_zero (by omega)
          exact ⟨u, by rw [this]⟩
      obtain ⟨e1, e2, e3, e4, e5, e6⟩ := resolveTurn_spec s u o hfu
      rw [hstep]
      rcases hq : s.queue with _ | ⟨v, q⟩
      · have hq1 : (resolveTurn s o).queue = [] := by rw [e4, hq]
        rw [processNextInQueue_emptyq _ hq1]
        have hlen2 : os.length =
            (resolveTurn s o).inFlight.length + (resolveTurn s o).queue.length := by
          rw [e1, hq1]
          rw [hfu, hq] at hlen
          simp only [List.length_cons, List.length_nil, List.nil_append,
            List.length_append] at hlen ⊢
          omega
        obtain ⟨d1, d2, d3, d4⟩ := ih (resolveTurn s o)
          (resolveTurn_tinv s o hinv) (by rw [e5]; exact ha)
          (by rw [e6]; exact hm) (Or.inr hq1) hlen2
        refine ⟨?_, d2, d3, d4⟩
        rw [d1, e3, e1, hq1, hfu]
        simp
      · have hq1 : (resolveTurn s o).queue = v :: q := by rw [e4, hq]
        have hdisp := processNextInQueue_dispatch (resolveTurn s o) v q hq1 e2
          (by rw [e5]; exact ha) (by rw [e6]; exact hm)
        rw [hdisp]
        have hinv2 : TInv { resolveTurn s o with
            queue := q
            isProcessingRef := true
            inFlight := (resolveTurn s o).inFlight ++ [v]
            emotion := .thinking
            statusText := "Processing..." } := by
          refine ⟨?_, ?_⟩
          · show ((resolveTurn s o).inFlight ++ [v]).length ≤ 1
            rw [e1]
            simp
          · show (true = true) ↔ ((resolveTurn s o).inFlight ++ [v] ≠ [])
            rw [e1]
            simp
        have hlen2 : os.length = ((resolveTurn s o).inFlight ++ [v]).length
            + q.length := by
          rw [e1]
          rw [hfu, hq] at hlen
          simp only [List.length_cons, List.length_nil, List.nil_append,
            List.length_append] at hlen ⊢
          omega
        obtain ⟨d1, d2, d3, d4⟩ := ih _ hinv2
          (by show (resolveTurn s o).isGameActive = true; rw [e5]; exact ha)
          (by show (resolveTurn s o).isMuted = false; rw [e6]; exact hm)
          (Or.inl rfl) hlen2
        refine ⟨?_, d2, d3, d4⟩
        rw [d1]
        show (resolveTurn s o).processed ++ ((resolveTurn s o).inFlight ++ [v]) ++ q
          = s.processed ++ s.inFlight ++ (v :: q)
        rw [e3, e1, hfu]
        simp
    · have hb2 : s.isProcessingRef = false := by simpa using hb
      have hqe : s.queue = [] := by
        rcases hrq with href | hqe
        · exact absurd href hb
        · exact hqe
      have hfe : s.inFlight = [] := by
        by_contra hne
        rw [hinv.2.mpr hne] at hb2
        cases hb2
      rw [hfe, hqe] at hlen
      simp at hlen

/-- C1: the turn controller is single-flight and lossless-FIFO — the
single-flight invariant (at most one utterance awaiting the judge, with
the guard raised exactly while one is) is preserved by every event; and
from any active, unmuted, silent state satisfying it, any mix of
accepted speech and text enqueues followed by enough turn completions
processes every utterance exactly once, in arrival order after the
already-pending work, draining the queue (nothing is dropped while a
turn is in flight). -/
theorem singleFlight_fifo_spec :
    (∀ (s : TurnState) (evs : List TEv), TInv s → TInv (trun s evs)) ∧
    (∀ (s : TurnState) (evs : List TEv) (os : List JudgeOutcome),
      TInv s → s.isGameActive = true → s.isMuted = false →
      s.isSpeaking = false → (s.isProcessingRef = true ∨ s.queue = []) →
      (∀ e ∈ evs, EnqEv e) →
      os.length = s.inFlight.length + s.queue.length + evs.length →
      (drive (trun s evs) os).processed =
        s.processed ++ s.inFlight ++ s.queue ++ evs.map enqueuedText ∧
      (drive (trun s evs) os).queue = [] ∧
      (drive (trun s evs) os).inFlight = []) := by
  constructor
  · intro s evs h
    exact trun_tinv evs s h
  · intro s evs os hinv ha hm hs hrq henq hlen
    obtain ⟨r1, r2, _, r4, r5, r6⟩ := enq_run evs s henq ha hm hs hrq
    have hinv2 : TInv (trun s evs) := trun_tinv evs s hinv
    have hlen2 : os.length =
        (trun s evs).inFlight.length + (trun s evs).queue.length := by
      have := congrArg List.length r6
      simp only [List.length_append, List.length_map] at this
      omega
    obtain ⟨d1, d2, d3, _⟩ := drive_run os (trun s evs) hinv2 r1 r2 r4 hlen2
    refine ⟨?_, d2, d3⟩
    rw [d1, r5]
    have : (trun s evs).processed ++ ((trun s evs).inFlight ++ (trun s evs).queue)
        = (trun s evs).processed ++ (s.inFlight ++ s.queue ++ evs.map enqueuedText) := by
      rw [r6]
    simp only [List.append_assoc] at this ⊢
    rw [r5] at this
    exact this

/-- Closed instance of C1: three utterances enqueued in rapid succession
while one is already in flight are all processed exactly once, in
arrival order, and the invariant survives an arbitrary event mix. -/
theorem singleFlight_fifo_spec_witness :
    TInv (trun sampleBusy
      [TEv.speechResult "a", TEv.muteToggle, TEv.beginTurn,
       TEv.finishTurn .judgeUnavailable]) ∧
    (drive (trun sampleBusy
        [TEv.speechResult "a", TEv.speechResult "b", TEv.speechResult "c"])
      [.incorrect "m1", .question "m2", .incorrect "m3", .correct "m4"]).processed =
      sampleBusy.processed ++ sampleBusy.inFlight ++ sampleBusy.queue ++
        List.map enqueuedText
          [TEv.speechResult "a", TEv.speechResult "b", TEv.speechResult "c"] := by
  constructor
  · exact singleFlight_fifo_spec.1 sampleBusy
      [TEv.speechResult "a", TEv.muteToggle, TEv.beginTurn,
       TEv.finishTurn .judgeUnavailable] (by decide)
  · exact (singleFlight_fifo_spec.2 sampleBusy
      [TEv.speechResult "a", TEv.speechResult "b", TEv.speechResult "c"]
      [.incorrect "m1", .question "m2", .incorrect "m3", .correct "m4"]
      (by decide) rfl rfl rfl (Or.inl rfl)
      (by intro e he; fin_cases he <;> simp [EnqEv]) rfl).1

/-! ## Turn controller: mute / stop clear the queue (C2) -/

theorem pnq_count (s : TurnState) (u : String) (hq : s.queue.count u = 0) :
    dispatchedCount (processNextInQueue s) u = dispatchedCount s u ∧
    (processNextInQueue s).queue.count u = 0 := by
  unfold processNextInQueue
  split
  · exact ⟨rfl, hq⟩
  · split
    · exact ⟨rfl, hq⟩
    · split
      · exact ⟨rfl, hq⟩
      · next v rest heq =>
          have hcount := hq
          rw [heq] at hcount
          simp only [List.count_cons] at hcount
          have hvu : (v == u) = false := by
            by_cases hb : (v == u) = true
            · rw [hb] at hcount
              simp at hcount
            · simpa using hb
          rw [hvu] at hcount
          simp at hcount
          constructor
          · show ((s.inFlight ++ [v]) ++ s.processed).count u
              = (s.inFlight ++ s.processed).count u
            simp [List.count_append, List.count_cons, hvu]
          · exact hcount

theorem resolveTurn_count (s : TurnState) (o : JudgeOutcome) (u : String) :
    dispatchedCount (resolveTurn s o) u = dispatchedCount s u ∧
    (resolveTurn s o).queue = s.queue := by
  rcases hf : s.inFlight with _ | ⟨w, restF⟩
  · rw [resolveTurn_noflight s o hf]
    exact ⟨rfl, rfl⟩
  · constructor
    · cases o <;>
        (simp only [dispatchedCount, resolveTurn, hf]
         simp only [List.count_append, List.count_cons, List.count_nil]
         omega)
    · cases o <;> simp [resolveTurn, hf]

theorem jsTrim_empty : jsTrim "" = "" := by
  decide

theorem stopListeningFlush_noflush (s : TurnState)
    (h : jsTrim s.accumulated = "") : stopListeningFlush s = s := by
  simp only [stopListeningFlush]
  rw [if_neg (not_not_intro h)]

theorem processNextInQueue_accumulated (s : TurnState) :
    (processNextInQueue s).accumulated = s.accumulated := by
  unfold processNextInQueue
  split
  · rfl
  · split
    · rfl
    · split
      · rfl
      · rfl

theorem resolveTurn_accumulated (s : TurnState) (o : JudgeOutcome) :
    (resolveTurn s o).accumulated = s.accumulated := by
  rcases hf : s.inFlight with _ | ⟨w, restF⟩
  · rw [resolveTurn_noflight s o hf]
  · cases o <;> simp [resolveTurn, hf]

theorem noenq_step (s : TurnState) (e : TEv) (u : String)
    (he : enqueuesUt u e = false) (hacc : isAccumulate e = false)
    (hq : s.queue.count u = 0) (hbuf : jsTrim s.accumulated = "") :
    dispatchedCount (tstep s e) u = dispatchedCount s u ∧
    (tstep s e).queue.count u = 0 ∧
    jsTrim (tstep s e).accumulated = "" := by
  cases e with
  | speechResult t =>
    simp only [tstep]
    unfold onSpeechResult
    split
    · have ht : ¬ (u = t) := by
        simp only [enqueuesUt] at he
        intro hut
        subst hut
        simp at he
      have hq2 : ({ s with queue := s.queue ++ [t] } : TurnState).queue.count u
          = 0 := by
        show (s.queue ++ [t]).count u = 0
        simp [List.count_append, List.count_cons, hq, ht]
      obtain ⟨c1, c2⟩ := pnq_count { s with queue := s.queue ++ [t] } u hq2
      refine ⟨c1, c2, ?_⟩
      rw [processNextInQueue_accumulated]
      exact hbuf
    · exact ⟨rfl, hq, hbuf⟩
  | textSubmit t =>
    simp only [tstep]
    unfold handleBackupTextSubmit
    split
    · exact ⟨rfl, hq, hbuf⟩
    · have ht : ¬ (u = t.trim) := by
        simp only [enqueuesUt] at he
        intro hut
        subst hut
        simp at he
      have hq2 : ({ s with queue := s.queue ++ [t.trim] } : TurnState).queue.count u
          = 0 := by
        show (s.queue ++ [t.trim]).count u = 0
        simp [List.count_append, List.count_cons, hq, ht]
      obtain ⟨c1, c2⟩ := pnq_count { s with queue := s.queue ++ [t.trim] } u hq2
      refine ⟨c1, c2, ?_⟩
      rw [processNextInQueue_accumulated]
      exact hbuf
  | beginTurn =>
    obtain ⟨c1, c2⟩ := pnq_count s u hq
    refine ⟨c1, c2, ?_⟩
    show jsTrim (processNextInQueue s).accumulated = ""
    rw [processNextInQueue_accumulated]
    exact hbuf
  | finishTurn o =>
    obtain ⟨hd, hqeq⟩ := resolveTurn_count s o u
    refine ⟨hd, ?_, ?_⟩
    · show (resolveTurn s o).queue.count u = 0
      rw [hqeq]
      exact hq
    · show jsTrim (resolveTurn s o).accumulated = ""
      rw [resolveTurn_accumulated]
      exact hbuf
  | narrationEnd =>
    simp only [tstep]
    unfold onNarrationEnd
    split
    · exact ⟨rfl, hq, hbuf⟩
    · exact ⟨rfl, hq, hbuf⟩
  | muteToggle =>
    simp only [tstep]
    unfold handleMuteToggle
    split
    · rw [stopListeningFlush_noflush s hbuf]
      exact ⟨rfl, rfl, hbuf⟩
    · split
      · exact ⟨rfl, hq, jsTrim_empty⟩
      · exact ⟨rfl, hq, hbuf⟩
  | stopGame =>
    have hsg : tstep s .stopGame =
        { s with
           isGameActive := false
           isSpeaking := false
           emotion := .neutral
           statusText := "Game ended"
           queue := [] } := by
      show handleStopGame s = _
      unfold handleStopGame
      rw [stopListeningFlush_noflush s hbuf]
    rw [hsg]
    exact ⟨rfl, rfl, hbuf⟩
  | startGameEv => exact ⟨rfl, hq, hbuf⟩
  | fireTimer =>
    simp only [tstep]
    unfold fireEndGameTimer
    split
    · exact ⟨rfl, hq, hbuf⟩
    · exact ⟨rfl, hq, hbuf⟩
  | accumulate t => cases hacc

theorem noenq_run (evs : List TEv) : ∀ (s : TurnState) (u : String),
    s.queue.count u = 0 → jsTrim s.accumulated = "" →
    (∀ e ∈ evs, enqueuesUt u e = false ∧ isAccumulate e = false) →
    dispatchedCount (trun s evs) u = dispatchedCount s u ∧
    (trun s evs).queue.count u = 0 ∧
    jsTrim (trun s evs).accumulated = "" := by
  induction evs with
  | nil => intro s u hq hbuf _; exact ⟨rfl, hq, hbuf⟩
  | cons e rest ih =>
    intro s u hq hbuf hall
    obtain ⟨g1, g2, g3⟩ := noenq_step s e u
      (hall e (List.mem_cons_self _ _)).1 (hall e (List.mem_cons_self _ _)).2
      hq hbuf
    obtain ⟨r1, r2, r3⟩ := ih (tstep s e) u g2 g3
      (fun x hx => hall x (List.mem_cons_of_mem _ hx))
    exact ⟨by rw [show trun s (e :: rest) = trun (tstep s e) rest from rfl,
      r1, g1], r2, r3⟩

/-- C2 fails on the code: `handleMuteToggle` calls `stopListening()`
BEFORE clearing the queue (AdminPage.tsx:220,222), and `stopListening`
synchronously flushes a non-blank accumulation buffer through
`onResult`, whose guard and `processNextInQueue` still read the
pre-mute render values (`setIsMuted` is an asynchronous React update).
In the state below, `"guess"` is queued but not dequeued and the guard
is down; muting flushes the buffer, re-enters `processNextInQueue`, and
dispatches `"guess"` to the dialogue engine — only then is the queue
cleared.  The same path exists in `handleStopGame`. -/
theorem muteFlush_counterexample :
    sampleMutePending.isMuted = false ∧
    sampleMutePending.queue = ["guess"] ∧
    sampleMutePending.inFlight = [] ∧
    dispatchedCount sampleMutePending "guess" = 0 ∧
    (tstep sampleMutePending .muteToggle).queue = [] ∧
    (tstep sampleMutePending .muteToggle).inFlight = ["guess"] ∧
    dispatchedCount (tstep sampleMutePending .muteToggle) "guess" = 1 := by
  decide

/-- C2 amended: muting (or stopping the game) always leaves the pending
queue empty; and provided the speech accumulation buffer is blank at
that moment — so the synchronous `stopListening()` flush delivers
nothing — the dispatched work is untouched by the mute, and along any
later event sequence that neither re-enqueues the utterance nor feeds
the accumulation buffer, the number of copies of that utterance ever
handed to the dialogue engine stays exactly what it was at mute time.
With a non-blank buffer the flush re-enters `onResult` under the stale
pre-mute state and can dispatch the front queued utterance before the
queue is cleared (see the counterexample). -/
theorem muteClearsQueue_amended :
    (∀ s : TurnState, s.isMuted = false → (tstep s .muteToggle).queue = []) ∧
    (∀ s : TurnState, (tstep s .stopGame).queue = []) ∧
    (∀ s : TurnState, s.isMuted = false → jsTrim s.accumulated = "" →
      (tstep s .muteToggle).inFlight = s.inFlight ∧
      (tstep s .muteToggle).processed = s.processed ∧
      jsTrim (tstep s .muteToggle).accumulated = "") ∧
    (∀ (s : TurnState) (u : String) (evs : List TEv),
      s.queue.count u = 0 → jsTrim s.accumulated = "" →
      (∀ e ∈ evs, enqueuesUt u e = false ∧ isAccumulate e = false) →
      dispatchedCount (trun s evs) u = dispatchedCount s u ∧
      (trun s evs).queue.count u = 0) := by
  refine ⟨?_, ?_, ?_, ?_⟩
  · intro s hm
    have hcond : (!s.isMuted) = true := by rw [hm]; rfl
    show (handleMuteToggle s).queue = []
    unfold handleMuteToggle
    rw [if_pos hcond]
  · intro s
    rfl
  · intro s hm hbuf
    have hcond : (!s.isMuted) = true := by rw [hm]; rfl
    have hmt : tstep s .muteToggle =
        { s with isMuted := true, isSpeaking := false, queue := [] } := by
      show handleMuteToggle s = _
      unfold handleMuteToggle
      rw [if_pos hcond, stopListeningFlush_noflush s hbuf]
    rw [hmt]
    exact ⟨rfl, rfl, hbuf⟩
  · intro s u evs hq hbuf hall
    obtain ⟨r1, r2, _⟩ := noenq_run evs s u hq hbuf hall
    exact ⟨r1, r2⟩

/-- Closed instance of the amended C2: muting with `"guess"` queued and
a blank capture buffer clears the queue without dispatching it, and
driving the result through unmute, a different utterance and a full
turn still never dispatches `"guess"`. -/
theorem muteClearsQueue_amended_witness :
    (tstep { sampleBusy with queue := ["guess"] } .muteToggle).queue = [] ∧
    (tstep { sampleBusy with queue := ["guess"] } .muteToggle).inFlight =
      ({ sampleBusy with queue := ["guess"] } : TurnState).inFlight ∧
    dispatchedCount
        (trun (tstep { sampleBusy with queue := ["guess"] } .muteToggle)
          [TEv.muteToggle, TEv.speechResult "other", TEv.beginTurn,
           TEv.finishTurn (.incorrect "no")])
        "guess" =
      dispatchedCount (tstep { sampleBusy with queue := ["guess"] } .muteToggle)
        "guess" := by
  refine ⟨?_, ?_, ?_⟩
  · exact muteClearsQueue_amended.1 { sampleBusy with queue := ["guess"] } rfl
  · exact (muteClearsQueue_amended.2.2.1 { sampleBusy with queue := ["guess"] }
      rfl (by decide)).1
  · exact (muteClearsQueue_amended.2.2.2
      (tstep { sampleBusy with queue := ["guess"] } .muteToggle) "guess"
      [TEv.muteToggle, TEv.speechResult "other", TEv.beginTurn,
       TEv.finishTurn (.incorrect "no")]
      (by decide) (by decide) (by decide)).1

/-! ## Turn controller: judge failure recovery (C3) -/

/-- C3: when the judge call fails (`JudgeUnavailable`), the turn aborts
with the emotion reset to neutral, nothing is narrated for that turn,
one user-visible error is surfaced, the in-flight guard is released and
the queue is untouched; and from an active, unmuted, silent state the
very next speech result is enqueued and dispatched — the controller is
not latched in the thinking state. -/
theorem judgeUnavailable_recovery_spec :
    ∀ (s : TurnState) (u : String), s.inFlight = [u] →
      (resolveTurn s .judgeUnavailable).emotion = .neutral ∧
      (resolveTurn s .judgeUnavailable).narrated = s.narrated ∧
      (resolveTurn s .judgeUnavailable).errorsSurfaced = s.errorsSurfaced + 1 ∧
      (resolveTurn s .judgeUnavailable).isProcessingRef = false ∧
      (resolveTurn s .judgeUnavailable).inFlight = [] ∧
      (resolveTurn s .judgeUnavailable).queue = s.queue ∧
      (s.isGameActive = true → s.isMuted = false → s.isSpeaking = false →
        s.queue = [] → ∀ t : String,
        (tstep (resolveTurn s .judgeUnavailable) (.speechResult t)).inFlight
          = [t] ∧
        (tstep (resolveTurn s .judgeUnavailable) (.speechResult t)).isProcessingRef
          = true ∧
        (tstep (resolveTurn s .judgeUnavailable) (.speechResult t)).emotion
          = .thinking) := by
  intro s u hf
  have hres : resolveTurn s .judgeUnavailable =
      { s with
         emotion := .neutral
         errorsSurfaced := s.errorsSurfaced + 1
         inFlight := []
         processed := s.processed ++ [u]
         isProcessingRef := false } := by
    simp [resolveTurn, hf]
  rw [hres]
  refine ⟨rfl, rfl, rfl, rfl, rfl, rfl, ?_⟩
  intro ha hm hs hqe t
  simp only [tstep]
  unfold onSpeechResult
  have hcond : (({ s with
      emotion := Emotion.neutral
      errorsSurfaced := s.errorsSurfaced + 1
      inFlight := ([] : List String)
      processed := s.processed ++ [u]
      isProcessingRef := false } : TurnState).isGameActive &&
      !({ s with
          emotion := Emotion.neutral
          errorsSurfaced := s.errorsSurfaced + 1
          inFlight := ([] : List String)
          processed := s.processed ++ [u]
          isProcessingRef := false } : TurnState).isMuted &&
      !({ s with
          emotion := Emotion.neutral
          errorsSurfaced := s.errorsSurfaced + 1
          inFlight := ([] : List String)
          processed := s.processed ++ [u]
          isProcessingRef := false } : TurnState).isSpeaking) = true := by
    show (s.isGameActive && !s.isMuted && !s.isSpeaking) = true
    rw [ha, hm, hs]
    rfl
  rw [if_pos hcond]
  have hq1 : (({ s with
      emotion := Emotion.neutral
      errorsSurfaced := s.errorsSurfaced + 1
      inFlight := ([] : List String)
      processed := s.processed ++ [u]
      isProcessingRef := false } : TurnState).queue ++ [t]) = t :: [] := by
    show s.queue ++ [t] = t :: []
    rw [hqe]
    rfl
  rw [processNextInQueue_dispatch _ t [] hq1 rfl
    (by show s.isGameActive = true; exact ha)
    (by show s.isMuted = false; exact hm)]
  exact ⟨by simp, rfl, rfl⟩

/-- Closed instance of C3 at a concrete busy state. -/
theorem judgeUnavailable_recovery_spec_witness :
    (resolveTurn sampleBusy .judgeUnavailable).emotion = .neutral ∧
    (resolveTurn sampleBusy .judgeUnavailable).narrated = sampleBusy.narrated ∧
    (tstep (resolveTurn sampleBusy .judgeUnavailable)
      (.speechResult "next guess")).inFlight = ["next guess"] := by
  obtain ⟨h1, h2, _, _, _, _, h7⟩ :=
    judgeUnavailable_recovery_spec sampleBusy "mistletoe" rfl
  exact ⟨h1, h2, (h7 rfl rfl rfl rfl "next guess").1⟩

/-! ## End-of-game timer after a correct answer (C4) -/

/-- C4 fails on the code: the `setTimeout(endGame, 5000)` handle is
never stored and no `clearTimeout` exists in AdminPage, so the timer
scheduled by a Correct outcome survives `handleStartGame`; in the
concrete run below a new round is started inside the delay window and
still-active play is terminated the moment the stale timer fires. -/
theorem endGameTimer_stale_counterexample :
    (trun sampleBusy
      [TEv.finishTurn (.correct "You got it"), TEv.startGameEv]).endGameTimers
      = [5000] ∧
    (trun sampleBusy
      [TEv.finishTurn (.correct "You got it"), TEv.startGameEv]).isGameActive
      = true ∧
    (trun sampleBusy
      [TEv.finishTurn (.correct "You got it"), TEv.startGameEv,
       TEv.fireTimer]).isGameActive = false := by
  decide

/-- C4 amended: after a Correct outcome `endGame()` is scheduled after a
fixed 5000 ms delay, but the timer is never cancelled or superseded:
starting a new round leaves it pending, and when it fires it ends
whatever game is then active. -/
theorem endGameTimer_schedule_spec :
    (∀ (s : TurnState) (u : String) (rest : List String) (msg : String),
      s.inFlight = u :: rest →
      (resolveTurn s (.correct msg)).endGameTimers =
        s.endGameTimers ++ [5000]) ∧
    (∀ s : TurnState, (tstep s .startGameEv).endGameTimers = s.endGameTimers) ∧
    (∀ (s : TurnState) (d : Nat) (rest : List Nat),
      s.endGameTimers = d :: rest →
      (tstep s .fireTimer).isGameActive = false ∧
      (tstep s .fireTimer).endGameTimers = rest) := by
  refine ⟨?_, ?_, ?_⟩
  · intro s u rest msg hf
    simp [resolveTurn, hf]
  · intro s
    rfl
  · intro s d rest ht
    show (fireEndGameTimer s).isGameActive = false ∧
      (fireEndGameTimer s).endGameTimers = rest
    unfold fireEndGameTimer
    split
    · next hnil => rw [ht] at hnil; cases hnil
    · next d2 rest2 heq =>
        rw [ht] at heq
        cases heq
        exact ⟨rfl, rfl⟩

/-- Closed instance of the amended C4 at a concrete busy state. -/
theorem endGameTimer_schedule_spec_witness :
    (resolveTurn sampleBusy (.correct "Yes")).endGameTimers =
      sampleBusy.endGameTimers ++ [5000] ∧
    (tstep { sampleBusy with endGameTimers := [5000] } .fireTimer).isGameActive
      = false := by
  constructor
  · exact endGameTimer_schedule_spec.1 sampleBusy "mistletoe" [] "Yes" rfl
  · exact (endGameTimer_schedule_spec.2.2
      { sampleBusy with endGameTimers := [5000] } 5000 [] rfl).1

/-! ## Marker classification and stripping (C9) -/

theorem startsWith_iff : ∀ (pat l : List Char),
    startsWith l pat = true ↔ ∃ rest, l = pat ++ rest := by
  intro pat
  induction pat with
  | nil =>
    intro l
    constructor
    · intro _
      exact ⟨l, rfl⟩
    · intro _
      cases l <;> rfl
  | cons p ps ih =>
    intro l
    cases l with
    | nil =>
      constructor
      · intro h
        cases h
      · rintro ⟨rest, h⟩
        cases h
    | cons c cs =>
      constructor
      · intro h
        have h2 : (decide (c = p) && startsWith cs ps) = true := h
        rw [Bool.and_eq_true] at h2
        have hc : c = p := of_decide_eq_true h2.1
        obtain ⟨rest, hr⟩ := (ih cs).mp h2.2
        subst hc
        exact ⟨rest, by rw [hr]; rfl⟩
      · rintro ⟨rest, hr⟩
        injection hr with h1 h2
        have hs : startsWith cs ps = true := (ih cs).mpr ⟨rest, h2⟩
        show (decide (c = p) && startsWith cs ps) = true
        simp [h1, hs]

theorem hasTag_iff : ∀ (pat l : List Char),
    hasTag l pat = true ↔ ∃ a b, l = a ++ pat ++ b := by
  intro pat l
  induction l with
  | nil =>
    constructor
    · intro h
      have hp : pat = [] := by
        cases pat with
        | nil => rfl
        | cons x xs => cases h
      exact ⟨[], [], by rw [hp]; rfl⟩
    · rintro ⟨a, b, hab⟩
      have := hab.symm
      rw [List.append_eq_nil] at this
      obtain ⟨h1, h2⟩ := this
      rw [List.append_eq_nil] at h1
      rw [h1.2]
      rfl
  | cons c cs ih =>
    constructor
    · intro h
      have h2 : (startsWith (c :: cs) pat || hasTag cs pat) = true := h
      rw [Bool.or_eq_true] at h2
      rcases h2 with h2 | h2
      · obtain ⟨rest, hr⟩ := (startsWith_iff pat (c :: cs)).mp h2
        exact ⟨[], rest, by rw [hr]; simp⟩
      · obtain ⟨a, b, hab⟩ := ih.mp h2
        exact ⟨c :: a, b, by rw [hab]; rfl⟩
    · rintro ⟨a, b, hab⟩
      show (startsWith (c :: cs) pat || hasTag cs pat) = true
      rw [Bool.or_eq_true]
      cases a with
      | nil =>
        left
        exact (startsWith_iff pat (c :: cs)).mpr ⟨b, by simpa using hab⟩
      | cons x a2 =>
        right
        injection hab with h1 h2
        exact ih.mpr ⟨a2, b, h2⟩

theorem hasTag_sub (pat a m b : List Char) (h : hasTag m pat = true) :
    hasTag (a ++ m ++ b) pat = true := by
  obtain ⟨x, y, hm⟩ := (hasTag_iff pat m).mp h
  refine (hasTag_iff pat _).mpr ⟨a ++ x, y ++ b, ?_⟩
  rw [hm]
  simp

theorem hasTag_false_sub (pat a m b : List Char)
    (h : hasTag (a ++ m ++ b) pat = false) : hasTag m pat = false := by
  by_cases hb : hasTag m pat = true
  · rw [hasTag_sub pat a m b hb] at h
    cases h
  · simpa using hb

theorem removeFirst_of_not_found (l pat : List Char)
    (h : hasTag l pat = false) : removeFirst l pat = l := by
  induction l with
  | nil => rfl
  | cons c cs ih =>
    have h2 : (startsWith (c :: cs) pat || hasTag cs pat) = false := h
    rw [Bool.or_eq_false_iff] at h2
    show (if startsWith (c :: cs) pat then (c :: cs).drop pat.length
      else c :: removeFirst cs pat) = c :: cs
    rw [h2.1]
    simp [ih h2.2]

theorem removeFirst_append_self (pat rest : List Char) (h : pat ≠ []) :
    removeFirst (pat ++ rest) pat = rest := by
  cases pat with
  | nil => exact absurd rfl h
  | cons p ps =>
    show (if startsWith (p :: (ps ++ rest)) (p :: ps)
      then (p :: (ps ++ rest)).drop (p :: ps).length
      else p :: removeFirst (ps ++ rest) (p :: ps)) = rest
    rw [(startsWith_iff (p :: ps) (p :: (ps ++ rest))).mpr ⟨rest, rfl⟩]
    simp only [if_true]
    exact List.drop_left (p :: ps) rest

theorem trimSeq_decomp (l : List Char) : ∃ a b, l = a ++ trimSeq l ++ b := by
  refine ⟨l.takeWhile isWsp,
    ((l.dropWhile isWsp).reverse.takeWhile isWsp).reverse, ?_⟩
  conv_lhs => rw [← List.takeWhile_append_dropWhile isWsp l]
  rw [List.append_assoc]
  congr 1
  conv_lhs => rw [← List.reverse_reverse (l.dropWhile isWsp),
    ← List.takeWhile_append_dropWhile isWsp (l.dropWhile isWsp).reverse]
  rw [List.reverse_append]
  rfl

theorem hasTag_trim_false (l pat : List Char) (h : hasTag l pat = false) :
    hasTag (trimSeq l) pat = false := by
  obtain ⟨a, b, hl⟩ := trimSeq_decomp l
  rw [hl] at h
  exact hasTag_false_sub pat a (trimSeq l) b h

/-- C9 fails on the code: `String.replace` with a plain-string pattern
removes only the FIRST occurrence, so a judge response containing a
marker twice keeps the second copy in the supposedly cleaned
user-facing message. -/
theorem markerStrip_counterexample :
    hasTag (handleUserInput ("[CORRECT] [CORRECT] Yes!".toList)).response cTag
      = true := by
  decide

/-- C9 amended: classification is exactly marker containment
(`isQuestion` iff the response contains `[QUESTION]`, `isCorrect` iff it
contains `[CORRECT]`), and for responses in the format the prompt
demands — exactly one leading tag, no marker occurring elsewhere — the
returned message is the trimmed remainder with every marker removed;
responses repeating a marker keep the extra occurrences (only the first
occurrence of each marker is removed). -/
theorem markerHandling_spec :
    ∀ (tag rest : List Char),
      (tag = qTag ∨ tag = cTag ∨ tag = iTag) →
      (∀ t, (t = qTag ∨ t = cTag ∨ t = iTag) → t ≠ tag →
        hasTag (tag ++ rest) t = false) →
      hasTag rest tag = false →
      ((handleUserInput (tag ++ rest)).isQuestion = true ↔ tag = qTag) ∧
      ((handleUserInput (tag ++ rest)).isCorrect = true ↔ tag = cTag) ∧
      (handleUserInput (tag ++ rest)).response = trimSeq rest ∧
      (∀ t, (t = qTag ∨ t = cTag ∨ t = iTag) →
        hasTag (handleUserInput (tag ++ rest)).response t = false) := by
  intro tag rest htag hother hself
  have hrest_of : ∀ t : List Char,
      hasTag (tag ++ rest) t = false → hasTag rest t = false := by
    intro t h
    apply hasTag_false_sub t tag rest []
    simpa using h
  have hpref : hasTag (tag ++ rest) tag = true :=
    (hasTag_iff tag (tag ++ rest)).mpr ⟨[], rest, by simp⟩
  rcases htag with h | h | h <;> subst h
  · have hC : hasTag (qTag ++ rest) cTag = false :=
      hother cTag (Or.inr (Or.inl rfl)) (by decide)
    have hI : hasTag (qTag ++ rest) iTag = false :=
      hother iTag (Or.inr (Or.inr rfl)) (by decide)
    have hrC : hasTag rest cTag = false := hrest_of cTag hC
    have hrI : hasTag rest iTag = false := hrest_of iTag hI
    have hresp : (handleUserInput (qTag ++ rest)).response = trimSeq rest := by
      show trimSeq (removeFirst (removeFirst
        (removeFirst (qTag ++ rest) cTag) iTag) qTag) = trimSeq rest
      rw [removeFirst_of_not_found _ _ hC, removeFirst_of_not_found _ _ hI,
        removeFirst_append_self qTag rest (by decide)]
    refine ⟨?_, ?_, hresp, ?_⟩
    · show hasTag (qTag ++ rest) qTag = true ↔ qTag = qTag
      rw [hpref]
      simp
    · show hasTag (qTag ++ rest) cTag = true ↔ qTag = cTag
      rw [hC]
      simp
      decide
    · intro t ht
      rw [hresp]
      rcases ht with h | h | h <;> subst h
      · exact hasTag_trim_false _ _ hself
      · exact hasTag_trim_false _ _ hrC
      · exact hasTag_trim_false _ _ hrI
  · have hQ : hasTag (cTag ++ rest) qTag = false :=
      hother qTag (Or.inl rfl) (by decide)
    have hI : hasTag (cTag ++ rest) iTag = false :=
      hother iTag (Or.inr (Or.inr rfl)) (by decide)
    have hrQ : hasTag rest qTag = false := hrest_of qTag hQ
    have hrI : hasTag rest iTag = false := hrest_of iTag hI
    have hresp : (handleUserInput (cTag ++ rest)).response = trimSeq rest := by
      show trimSeq (removeFirst (removeFirst
        (removeFirst (cTag ++ rest) cTag) iTag) qTag) = trimSeq rest
      rw [removeFirst_append_self cTag rest (by decide),
        removeFirst_of_not_found _ _ hrI, removeFirst_of_not_found _ _ hrQ]
    refine ⟨?_, ?_, hresp, ?_⟩
    · show hasTag (cTag ++ rest) qTag = true ↔ cTag = qTag
      rw [hQ]
      simp
      decide
    · show hasTag (cTag ++ rest) cTag = true ↔ cTag = cTag
      rw [hpref]
      simp
    · intro t ht
      rw [hresp]
      rcases ht with h | h | h <;> subst h
      · exact hasTag_trim_false _ _ hrQ
      · exact hasTag_trim_false _ _ hself
      · exact hasTag_trim_false _ _ hrI
  · have hQ : hasTag (iTag ++ rest) qTag = false :=
      hother qTag (Or.inl rfl) (by decide)
    have hC : hasTag (iTag ++ rest) cTag = false :=
      hother cTag (Or.inr (Or.inl rfl)) (by decide)
    have hrQ : hasTag rest qTag = false := hrest_of qTag hQ
    have hrC : hasTag rest cTag = false := hrest_of cTag hC
    have hresp : (handleUserInput (iTag ++ rest)).response = trimSeq rest := by
      show trimSeq (removeFirst (removeFirst
        (removeFirst (iTag ++ rest) cTag) iTag) qTag) = trimSeq rest
      rw [removeFirst_of_not_found _ _ hC,
        removeFirst_append_self iTag rest (by decide),
        removeFirst_of_not_found _ _ hrQ]
    refine ⟨?_, ?_, hresp, ?_⟩
    · show hasTag (iTag ++ rest) qTag = true ↔ iTag = qTag
      rw [hQ]
      simp
      decide
    · show hasTag (iTag ++ rest) cTag = true ↔ iTag = cTag
      rw [hC]
      simp
      decide
    · intro t ht
      rw [hresp]
      rcases ht with h | h | h <;> subst h
      · exact hasTag_trim_false _ _ hrQ
      · exact hasTag_trim_false _ _ hrC
      · exact hasTag_trim_false _ _ hself

/-- Closed instance of the amended C9: a question-tagged response is
classified as a question and cleaned to the bare answer. -/
theorem markerHandling_spec_witness :
    (handleUserInput (qTag ++ " No, it is not food. ".toList)).isQuestion
      = true ∧
    (handleUserInput (qTag ++ " No, it is not food. ".toList)).response
      = trimSeq (" No, it is not food. ".toList) := by
  obtain ⟨h1, _, h3, _⟩ := markerHandling_spec qTag
    (" No, it is not food. ".toList) (Or.inl rfl)
    (by intro t ht htne; rcases ht with h | h | h <;> subst h <;>
      first
        | exact absurd rfl htne
        | decide)
    (by decide)
  exact ⟨h1.mpr rfl, h3⟩

/-! ## Speech capture stop flush (C10) -/

/-- C10: `stopListening` raises the intentional-stop flag, cancels the
pending restart and silence timers, and flushes the accumulation buffer:
when the trimmed buffer is non-empty, `onResult` receives exactly that
trimmed text once and the buffer is cleared; when it is empty, no
utterance is delivered. -/
theorem stopListening_flush_spec :
    ∀ s : SpeechState,
      (stopListening s).1.intentionalStop = true ∧
      (stopListening s).1.restartPending = false ∧
      (stopListening s).1.silencePending = false ∧
      (jsTrim s.accumulated ≠ "" →
        (stopListening s).2 = some (jsTrim s.accumulated) ∧
        (stopListening s).1.accumulated = "") ∧
      (jsTrim s.accumulated = "" →
        (stopListening s).2 = none ∧
        (stopListening s).1.accumulated = s.accumulated) := by
  intro s
  by_cases h : jsTrim s.accumulated = ""
  · have heq : stopListening s =
        ({ s with
            intentionalStop := true
            restartPending := false
            silencePending := false }, none) := by
      simp only [stopListening]
      rw [if_neg (by simp [h])]
    rw [heq]
    exact ⟨rfl, rfl, rfl, fun hne => absurd h hne, fun _ => ⟨rfl, rfl⟩⟩
  · have heq : stopListening s =
        ({ s with
            intentionalStop := true
            restartPending := false
            silencePending := false
            accumulated := "" }, some (jsTrim s.accumulated)) := by
      simp only [stopListening]
      rw [if_pos h]
    rw [heq]
    exact ⟨rfl, rfl, rfl, fun _ => ⟨rfl, rfl⟩, fun he => absurd he h⟩

/-- Closed instance of C10: stopping after one accumulated final segment
delivers the trimmed segment once; stopping with an all-blank buffer
delivers nothing. -/
theorem stopListening_flush_spec_witness :
    (stopListening (accumulateFinal
      { accumulated := ""
        restartPending := true
        silencePending := false
        intentionalStop := false
        listening := true } "hello riddle")).2 = some (jsTrim (" hello riddle"))
    ∧
    (stopListening
      { accumulated := " "
        restartPending := false
        silencePending := true
        intentionalStop := false
        listening := true }).2 = none := by
  constructor
  · exact ((stopListening_flush_spec (accumulateFinal
      { accumulated := ""
        restartPending := true
        silencePending := false
        intentionalStop := false
        listening := true } "hello riddle")).2.2.2.1 (by decide)).1
  · exact ((stopListening_flush_spec
      { accumulated := " "
        restartPending := false
        silencePending := true
        intentionalStop := false
        listening := true }).2.2.2.2 (by decide)).1

end RiddleGame
